import Mathlib

/-!
Verification of the core bond-recommendation and coupon-payout logic of the
AI-Financial-Advisor repository (`backend/bond_operations.py` and
`backend/genai.py`), shallowly embedded in Lean 4.

Modelling conventions:
* Python floats are modelled as exact rationals (`ℚ`); `round(x, n)` is
  modelled as decimal round-half-to-even on rationals.
* Python `datetime` values are modelled at day granularity by a proleptic
  Gregorian date (`PDate`) together with its day ordinal (as in
  `datetime.toordinal`); `datetime.now()` becomes an explicit `asOf` date
  parameter.
* Python functions that can raise are modelled as `Except String` values
  whose error strings paraphrase the exception.
* String processing is done on `List Char` (`String.data`) with structurally
  recursive helpers, so that every definition reduces in the kernel.
-/

deriving instance DecidableEq for Except

/-- Proleptic Gregorian calendar date (as produced by `datetime.strptime`). -/
structure PDate where
  year : ℕ
  month : ℕ
  day : ℕ
deriving DecidableEq, Repr

/-- Gregorian leap-year test. -/
def isLeap (y : ℕ) : Bool :=
  (y % 4 = 0 && y % 100 ≠ 0) || y % 400 = 0

/-- Length of month `m` (1-12) in year `y`. -/
def daysInMonth (y : ℕ) (m : ℕ) : ℕ :=
  if m = 2 then (if isLeap y then 29 else 28)
  else if m = 4 ∨ m = 6 ∨ m = 9 ∨ m = 11 then 30
  else 31

/-- Days in the years strictly before year `y` (as in `datetime.date.toordinal`). -/
def daysBeforeYear (y : ℕ) : ℕ :=
  365 * (y - 1) + (y - 1) / 4 - (y - 1) / 100 + (y - 1) / 400

/-- Days in the months of year `y` strictly before month `m`. -/
def daysBeforeMonth (y : ℕ) (m : ℕ) : ℕ :=
  ((List.range (m - 1)).map (fun k => daysInMonth y (k + 1))).sum

/-- Day ordinal of a date: `toOrdinal ⟨1,1,1⟩ = 1`, matching Python's
`datetime.date.toordinal`. Comparison of `datetime` values in the source is
modelled by comparison of ordinals. -/
def toOrdinal (d : PDate) : ℕ :=
  daysBeforeYear d.year + daysBeforeMonth d.year d.month + d.day

/-- A bond record, restricted to the projected fields of
`load_and_prepare_bonds` that the verified operations inspect. -/
structure Bond where
  ISIN : String
  COUPON_RATE : String
  CREDIT_RATING_CREDIT_RATING_AGENCY : String
  FREQUENCY_OF_THE_INTEREST_PAYMENT : String
  REDEMPTION : String
deriving DecidableEq, Repr

/-- The user-preference dictionary consumed by the scoring functions. -/
structure Prefs where
  coupon_rate : ℚ
  rating : String
  interest_frequency : String
  redemption_year : ℤ
deriving DecidableEq, Repr

/-- Split a character list at every occurrence of `sep`; the Python
`str.split(sep)` / single-character-separator `String.splitOn` semantics
(`"".split(sep) = [""]`). -/
def splitOnChar (sep : Char) : List Char → List (List Char)
  | [] => [[]]
  | c :: cs =>
    let r := splitOnChar sep cs
    if c = sep then [] :: r
    else
      match r with
      | [] => [[c]]
      | w :: ws => (c :: w) :: ws

/-- Numeric value of a list of decimal digit characters (leading zeros allowed). -/
def natOfDigits (l : List Char) : ℕ :=
  l.foldl (fun n c => 10 * n + (c.toNat - 48)) 0

/-- A `%d` / `%m` field of CPython `strptime`: one or two digit characters. -/
def field12 (l : List Char) : Option ℕ :=
  if (l.length = 1 ∨ l.length = 2) ∧ l.all (·.isDigit) then some (natOfDigits l) else none

/-- A `%Y` field of CPython `strptime`: exactly four digit characters. -/
def field4 (l : List Char) : Option ℕ :=
  if l.length = 4 ∧ l.all (·.isDigit) then some (natOfDigits l) else none

/-- Build a date after the validity checks of the `datetime` constructor
(`MINYEAR = 1`, `MAXYEAR = 9999`, month 1-12, day within the month). -/
def mkValidDate (y m d : ℕ) : Option PDate :=
  if 1 ≤ y ∧ y ≤ 9999 ∧ 1 ≤ m ∧ m ≤ 12 ∧ 1 ≤ d ∧ d ≤ daysInMonth y m then
    some ⟨y, m, d⟩
  else none

/-- `datetime.strptime(s, "%d-%m-%Y")` (date part). -/
def strptimeDMY (s : String) : Option PDate :=
  match splitOnChar '-' s.data with
  | [a, b, c] => do
    let d ← field12 a
    let m ← field12 b
    let y ← field4 c
    mkValidDate y m d
  | _ => none

/-- `datetime.strptime(s, "%Y-%m-%d")` (date part). -/
def strptimeYMD (s : String) : Option PDate :=
  match splitOnChar '-' s.data with
  | [a, b, c] => do
    let y ← field4 a
    let m ← field12 b
    let d ← field12 c
    mkValidDate y m d
  | _ => none

/-- `datetime.strptime(s, "%m-%d-%Y")` (date part). -/
def strptimeMDY (s : String) : Option PDate :=
  match splitOnChar '-' s.data with
  | [a, b, c] => do
    let m ← field12 a
    let d ← field12 b
    let y ← field4 c
    mkValidDate y m d
  | _ => none

/-- Predicate used for the 380-day runway filter of `load_and_prepare_bonds`:
the parsed `REDEMPTION` date lies strictly more than 380 days after `asOf`
(`datetime.strptime(bond["REDEMPTION"], "%d-%m-%Y") > current_date +
timedelta(days=380)`). Returns `false` on an unparseable date (that case is
an error in the loader; this predicate only describes the retained set). -/
def isActive (asOf : PDate) (b : Bond) : Bool :=
  match strptimeDMY b.REDEMPTION with
  | some d => decide (toOrdinal asOf + 380 < toOrdinal d)
  | none => false

/-- The list-comprehension filter of `load_and_prepare_bonds` on an input
whose dates all parse. -/
def activesOf (records : List Bond) (asOf : PDate) : List Bond :=
  records.filter (isActive asOf)

/-- The active-bond list comprehension of `load_and_prepare_bonds`:
`strptime` is applied to every record in order and its `ValueError`
(unparseable `REDEMPTION`) aborts the whole comprehension. -/
def parseActives (asOf : PDate) : List Bond → Except String (List Bond)
  | [] => .ok []
  | b :: bs =>
    match strptimeDMY b.REDEMPTION with
    | none => .error ("ValueError: time data " ++ b.REDEMPTION ++ " does not match format %d-%m-%Y")
    | some d =>
      match parseActives asOf bs with
      | .error e => .error e
      | .ok rest => .ok (if toOrdinal asOf + 380 < toOrdinal d then b :: rest else rest)

/-- The ISIN-deduplication loop of `load_and_prepare_bonds` (`seen_isins`
accumulates the identifiers already kept; first occurrence wins). -/
def dedupISIN (seen : List String) : List Bond → List Bond
  | [] => []
  | b :: bs =>
    if b.ISIN ∈ seen then dedupISIN seen bs
    else b :: dedupISIN (b.ISIN :: seen) bs

/-- `load_and_prepare_bonds`, with the raw JSON records and `datetime.now()`
made explicit parameters. The field projection of the source keeps exactly
the fields already present in `Bond`, so it is the identity here. -/
def load_and_prepare_bonds (records : List Bond) (asOf : PDate) : Except String (List Bond) :=
  match parseActives asOf records with
  | .error e => .error e
  | .ok actives => .ok (dedupISIN [] actives)

/-- The whitespace set of Python `str.split()` / `str.isspace()`: the
characters carrying the WHITESPACE flag in the CPython Unicode type table —
U+0009..U+000D (tab, LF, VT, FF, CR), U+001C..U+001F, space, U+0085 (NEL),
U+00A0 (NBSP), U+1680, U+2000..U+200A, U+2028, U+2029, U+202F, U+205F and
U+3000. -/
def pyIsSpace (c : Char) : Bool :=
  let n := c.toNat
  decide ((9 ≤ n ∧ n ≤ 13) ∨ (28 ≤ n ∧ n ≤ 32) ∨ n = 133 ∨ n = 160 ∨
    n = 0x1680 ∨ (0x2000 ≤ n ∧ n ≤ 0x200A) ∨ n = 0x2028 ∨ n = 0x2029 ∨
    n = 0x202F ∨ n = 0x205F ∨ n = 0x3000)

/-- Accumulator loop behind `pySplitWS`: `acc` holds the (reversed) current
word. -/
def wordsAux : List Char → List Char → List (List Char)
  | [], acc => if acc = [] then [] else [acc.reverse]
  | c :: cs, acc =>
    if pyIsSpace c then
      if acc = [] then wordsAux cs [] else acc.reverse :: wordsAux cs []
    else wordsAux cs (c :: acc)

/-- Python `str.split()` (no argument): split on runs of whitespace,
discarding empty pieces. -/
def pySplitWS (s : String) : List String :=
  (wordsAux s.data []).map fun w => String.mk w

/-- Does `hay` start with `needle`? -/
def listStartsWith : List Char → List Char → Bool
  | [], _ => true
  | _ :: _, [] => false
  | a :: as, b :: bs => a = b && listStartsWith as bs

/-- Python substring test `needle in hay`. -/
def listContainsSeq (needle : List Char) : List Char → Bool
  | [] => listStartsWith needle []
  | c :: cs => listStartsWith needle (c :: cs) || listContainsSeq needle cs

/-- Python `str.lower()` (ASCII part, which is all the source data uses). -/
def listToLower (l : List Char) : List Char :=
  l.map Char.toLower

/-- Python `int(s)` on a string: optional surrounding whitespace, optional
sign, then a nonempty run of decimal digits (the rare underscore-grouping
syntax is not modelled; no catalog value uses it). `none` models the
`ValueError` raise. -/
def pyIntParse (s : String) : Option ℤ :=
  let cs := ((s.data.dropWhile pyIsSpace).reverse.dropWhile pyIsSpace).reverse
  match cs with
  | '-' :: ds => if ds ≠ [] ∧ ds.all (·.isDigit) then some (-(natOfDigits ds : ℤ)) else none
  | '+' :: ds => if ds ≠ [] ∧ ds.all (·.isDigit) then some (natOfDigits ds : ℤ) else none
  | ds => if ds ≠ [] ∧ ds.all (·.isDigit) then some (natOfDigits ds : ℤ) else none

/-- Longest leading run of digit characters, and the remainder. -/
def digitRun : List Char → List Char × List Char
  | [] => ([], [])
  | c :: cs =>
    if c.isDigit then
      let p := digitRun cs
      (c :: p.1, p.2)
    else ([], c :: cs)

/-- Rational value of the matched percentage text `d1 [. d2]` (Python
`float(match.group(1))`, with the decimal literal taken exactly). -/
def couponValOf (d1 d2 : List Char) : ℚ :=
  (natOfDigits d1 : ℚ) + (natOfDigits d2 : ℚ) / 10 ^ d2.length

/-- Try to match the regex `(\d+(\.\d+)?)%` at the start of `cs`, returning
the numeric value of group 1. Mirrors the backtracking outcome of
`re.search` at a fixed start position: the integer part is a maximal digit
run, the optional fractional part is taken only when followed by `%`. -/
def matchAt (cs : List Char) : Option ℚ :=
  let p1 := digitRun cs
  if p1.1 = [] then none
  else
    match p1.2 with
    | '%' :: _ => some (couponValOf p1.1 [])
    | '.' :: r2 =>
      let p2 := digitRun r2
      if p2.1 ≠ [] ∧ p2.2.head? = some '%' then some (couponValOf p1.1 p2.1) else none
    | _ => none

/-- `re.search(r"(\d+(\.\d+)?)%", ...)`: leftmost match wins. -/
def searchCoupon : List Char → Option ℚ
  | [] => none
  | c :: cs =>
    match matchAt (c :: cs) with
    | some v => some v
    | none => searchCoupon cs

/-- `extract_coupon_value`: the first percentage in the text, else 0.0. -/
def extract_coupon_value (coupon_str : String) : ℚ :=
  (searchCoupon coupon_str.data).getD 0

/-- `coupon_score`: `max(0, 1 - abs(bond_coupon_val - user_coupon) / user_coupon)`;
a zero target raises `ZeroDivisionError` in Python. -/
def coupon_score (bond_coupon : String) (user_coupon : ℚ) : Except String ℚ :=
  if user_coupon = 0 then .error "ZeroDivisionError: float division by zero"
  else .ok (max 0 (1 - |extract_coupon_value bond_coupon - user_coupon| / user_coupon))

/-- `rating_score`: 1.0 on exact match, else 0.5 when the bond rating starts
with the first character of the user rating (`user_rating[0]` raises
`IndexError` on an empty user rating), else 0. -/
def rating_score (bond_rating : String) (user_rating : String) : Except String ℚ :=
  if bond_rating = user_rating then .ok 1
  else
    match user_rating.data with
    | [] => .error "IndexError: string index out of range"
    | c :: _ =>
      .ok (match bond_rating.data with
           | [] => 0
           | b :: _ => if b = c then 1/2 else 0)

/-- The rating term of `bond_score`:
`rating_score(bond["CREDIT_RATING_CREDIT_RATING_AGENCY"].split()[0], prefs["rating"])`;
`split()[0]` raises `IndexError` when the credit text has no tokens. -/
def credit_rating_term (b : Bond) (p : Prefs) : Except String ℚ :=
  match pySplitWS b.CREDIT_RATING_CREDIT_RATING_AGENCY with
  | [] => .error "IndexError: list index out of range"
  | t :: _ => rating_score t p.rating

/-- `interest_score`: case-insensitive substring test, 1.0 or 0. -/
def interest_score (bond_freq : String) (user_freq : String) : ℚ :=
  if listContainsSeq (listToLower user_freq.data) (listToLower bond_freq.data) then 1 else 0

/-- `redemption_score`: `int(bond_redemption.split('-')[-1])` then
`max(0, 1 - abs(bond_year - user_year) / 10)`; a non-numeric final
component raises `ValueError` in Python. -/
def redemption_score (bond_redemption : String) (user_year : ℤ) : Except String ℚ :=
  match pyIntParse (String.mk ((splitOnChar '-' bond_redemption.data).getLastD [])) with
  | none => .error "ValueError: invalid literal for int() with base 10"
  | some yr => .ok (max 0 (1 - |(yr : ℚ) - (user_year : ℚ)| / 10))

/-- `bond_score`: the weighted sum `0.3*coupon + 0.3*rating + 0.2*interest +
0.2*redemption`, with the sub-scores evaluated in the source's order so the
first raised exception propagates. -/
def bond_score (b : Bond) (p : Prefs) : Except String ℚ :=
  match coupon_score b.COUPON_RATE p.coupon_rate with
  | .error e => .error e
  | .ok c =>
    match credit_rating_term b p with
    | .error e => .error e
    | .ok r =>
      match redemption_score b.REDEMPTION p.redemption_year with
      | .error e => .error e
      | .ok d =>
        .ok (3/10 * c + 3/10 * r
             + 2/10 * interest_score b.FREQUENCY_OF_THE_INTEREST_PAYMENT p.interest_frequency
             + 2/10 * d)

/-- The sort key of `get_bond_recommendations` as a total function: the score
when defined (the only case the ranker ever reaches), junk 0 otherwise. -/
def scoreKey (p : Prefs) (b : Bond) : ℚ :=
  match bond_score b p with
  | .ok q => q
  | .error _ => 0

/-- Key computation of Python `sorted(..., key=...)`: the key function is
applied to every element up front and its first exception aborts the sort. -/
def computeScores (p : Prefs) : List Bond → Except String (List ℚ)
  | [] => .ok []
  | b :: bs =>
    match bond_score b p with
    | .error e => .error e
    | .ok q =>
      match computeScores p bs with
      | .error e => .error e
      | .ok rest => .ok (q :: rest)

/-- Insert into a descending-sorted list, after every element with a score
`≥` the new element's: the stable descending insertion step. -/
def insertDescBond (p : Prefs) (x : Bond) : List Bond → List Bond
  | [] => [x]
  | y :: ys =>
    if scoreKey p x < scoreKey p y then y :: insertDescBond p x ys
    else x :: y :: ys

/-- Stable sort by score descending: the observable behaviour of Python
`sorted(bonds, key=score, reverse=True)` (any stable descending sort
produces the same list). -/
def sortBonds (p : Prefs) : List Bond → List Bond
  | [] => []
  | x :: xs => insertDescBond p x (sortBonds p xs)

/-- `get_bond_recommendations`: score every bond (propagating the first
scoring exception, as Python `sorted` does), then stable-sort descending. -/
def get_bond_recommendations (active_bonds : List Bond) (user_preferences : Prefs) :
    Except String (List Bond) :=
  match computeScores user_preferences active_bonds with
  | .error e => .error e
  | .ok _ => .ok (sortBonds user_preferences active_bonds)

/-- Python `int(x)` on a rational: truncation toward zero. -/
def truncQ (q : ℚ) : ℤ :=
  if q < 0 then -⌊-q⌋ else ⌊q⌋

/-- Round to the nearest integer, ties to even: the rounding of Python's
built-in `round` (modelled on exact rationals). -/
def roundHE (q : ℚ) : ℤ :=
  let f := ⌊q⌋
  let r := q - (f : ℚ)
  if r < 1/2 then f
  else if 1/2 < r then f + 1
  else if f % 2 = 0 then f else f + 1

/-- Python `round(q, n)`. -/
def round_to (n : ℕ) (q : ℚ) : ℚ :=
  (roundHE (q * 10 ^ n) : ℚ) / 10 ^ n

/-- The `frequency_map` dictionary of `calculate_coupon_payout`, applied to
the lower-cased frequency string. -/
def frequency_map (s : String) : Option ℕ :=
  if s = "monthly" then some 12
  else if s = "quarterly" then some 4
  else if s = "semi-annual" then some 2
  else if s = "semi annual" then some 2
  else if s = "annual" then some 1
  else none

/-- Rate normalization of `calculate_coupon_payout` (numeric branch): a value
greater than 1 is taken to be a percentage and divided by 100. -/
def normalizeRate (annual_coupon_rate : ℚ) : ℚ :=
  if 1 < annual_coupon_rate then annual_coupon_rate / 100 else annual_coupon_rate

/-- One entry of the payout schedule. The source formats the payout date as a
`YYYY-MM-DD` string; here the date is kept as its day ordinal (`date_ord`),
i.e. `toOrdinal` of the start date plus the computed day offset. -/
structure PayoutEntry where
  payment_number : ℕ
  date_ord : ℤ
  amount : ℚ
deriving DecidableEq, Repr

/-- The result dictionary of `calculate_coupon_payout`. -/
structure PayoutResult where
  investment_amount : ℚ
  annual_coupon_rate : ℚ
  payout_frequency : String
  payments_per_year : ℕ
  payout_per_payment : ℚ
  total_payments : ℤ
  total_coupon_income : ℚ
  effective_annual_return : ℚ
  payout_schedule : List PayoutEntry
deriving DecidableEq, Repr

/-- `calculate_coupon_payout` with the start date already parsed (the string
parsing is factored into `parse_start_date` below) and the rate given as a
number (the branch for a string-typed rate containing `%` is not modelled;
no claim concerns it). Every numeric step follows the source:
`total_payments = int(horizon_years * payments_per_year)`; the unrounded
per-payment amount is multiplied by `total_payments` and only then rounded;
payout dates are `start + int(365 / ppy * (i+1))` days. -/
def calculate_coupon_payout (investment_amount annual_coupon_rate horizon_years : ℚ)
    (payout_frequency : String) (start : PDate) : Except String PayoutResult :=
  match frequency_map (String.mk (listToLower payout_frequency.data)) with
  | none => .error "Invalid frequency. Choose from: [monthly, quarterly, semi-annual, semi annual, annual]"
  | some payments_per_year =>
    let total_payments : ℤ := truncQ (horizon_years * payments_per_year)
    let rate := normalizeRate annual_coupon_rate
    let payout_per_payment : ℚ := rate * investment_amount / payments_per_year
    let total_coupon_income : ℚ := payout_per_payment * total_payments
    let days_between_payments : ℚ := 365 / payments_per_year
    .ok {
      investment_amount := investment_amount
      annual_coupon_rate := rate
      payout_frequency := payout_frequency
      payments_per_year := payments_per_year
      payout_per_payment := round_to 2 payout_per_payment
      total_payments := total_payments
      total_coupon_income := round_to 2 total_coupon_income
      effective_annual_return := round_to 4 ((total_coupon_income / investment_amount) / horizon_years)
      payout_schedule := (List.range total_payments.toNat).map fun i =>
        { payment_number := i + 1
          date_ord := (toOrdinal start : ℤ) + truncQ (days_between_payments * ((i : ℚ) + 1))
          amount := round_to 2 payout_per_payment } }

/-- Exactly four / exactly two digits (the zero-padded fields required by
`datetime.fromisoformat`). -/
def exactDigits (n : ℕ) (l : List Char) : Option ℕ :=
  if l.length = n ∧ l.all (·.isDigit) then some (natOfDigits l) else none

/-- Two digit characters, returning their value and the remaining input
(the fixed-width components of `_parse_hh_mm_ss_ff`). -/
def parse2Digits : List Char → Option (ℕ × List Char)
  | a :: b :: rest => if a.isDigit ∧ b.isDigit then some (natOfDigits [a, b], rest) else none
  | _ => none

/-- CPython `_parse_hh_mm_ss_ff`: parse `HH[:MM[:SS[.fff|.ffffff]]]`,
returning hours, minutes, seconds and the fraction scaled to microseconds
(a 3-digit fraction counts milliseconds). -/
def parseHMSF (l : List Char) : Option (ℕ × ℕ × ℕ × ℕ) := do
  let (h, r1) ← parse2Digits l
  match r1 with
  | [] => some (h, 0, 0, 0)
  | ':' :: r2 => do
    let (m, r3) ← parse2Digits r2
    match r3 with
    | [] => some (h, m, 0, 0)
    | ':' :: r4 => do
      let (s, r5) ← parse2Digits r4
      match r5 with
      | [] => some (h, m, s, 0)
      | '.' :: r6 =>
        if r6.length = 3 ∧ r6.all (·.isDigit) then some (h, m, s, 1000 * natOfDigits r6)
        else if r6.length = 6 ∧ r6.all (·.isDigit) then some (h, m, s, natOfDigits r6)
        else none
      | _ => none
    | _ => none
  | _ => none

/-- Split at the first occurrence of `c`, when present. -/
def splitAtFirst (c : Char) : List Char → Option (List Char × List Char)
  | [] => none
  | x :: xs =>
    if x = c then some ([], xs)
    else (splitAtFirst c xs).map fun p => (x :: p.1, p.2)

/-- The time part of CPython `_parse_isoformat_time` (3.7-3.10): the string
up to the first `-` (else the first `+`) must parse as a valid wall-clock
time `HH[:MM[:SS[.fff|.ffffff]]]`; the remainder, when present, must be a
UTC offset shaped `HH:MM`, `HH:MM:SS` or `HH:MM:SS.ffffff` (lengths 5, 8,
15) whose magnitude is strictly below 24 hours (the `timezone` constructor
check). -/
def parseISOTime (t : List Char) : Bool :=
  let split : List Char × Option (List Char) :=
    match splitAtFirst '-' t with
    | some p => (p.1, some p.2)
    | none =>
      match splitAtFirst '+' t with
      | some p => (p.1, some p.2)
      | none => (t, none)
  match parseHMSF split.1 with
  | none => false
  | some (h, m, s, _) =>
    decide (h < 24 ∧ m < 60 ∧ s < 60) &&
    match split.2 with
    | none => true
    | some tzstr =>
      decide (tzstr.length = 5 ∨ tzstr.length = 8 ∨ tzstr.length = 15) &&
      match parseHMSF tzstr with
      | none => false
      | some (th, tm, ts, tf) =>
        decide (((th * 3600 + tm * 60 + ts) * 1000000 + tf) < 86400000000)

/-- Model of `datetime.fromisoformat` on strings containing `T`, restricted
to the date component (all the calculator keeps at day granularity). It
implements the documented inverse-isoformat grammar of CPython 3.7-3.10:
`YYYY-MM-DD`, a separator (`T` in every string this branch can receive),
a time `HH[:MM[:SS[.fff|.ffffff]]]`, and an optional UTC offset
`(+|-)HH:MM[:SS[.ffffff]]` strictly below 24 hours. Two knowingly excluded
version-specific corners: 3.7-3.10 also accepted a bare trailing separator
with no time (an `s[11:]` slicing accident, rejected again by 3.11), and
3.11+ widens the accepted set beyond the documented inverse-isoformat
grammar (e.g. a trailing `Z`). -/
def parseISODateTimeDate (s : String) : Option PDate :=
  match splitOnChar 'T' s.data with
  | [d, t] =>
    (match splitOnChar '-' d with
     | [a, b, c] => do
       let y ← exactDigits 4 a
       let m ← exactDigits 2 b
       let dd ← exactDigits 2 c
       if parseISOTime t then mkValidDate y m dd else none
     | _ => none)
  | _ => none

/-- The error message raised by the start-date parsing of
`calculate_coupon_payout` (quotes around the offending value elided). -/
def startDateErrMsg (s : String) : String :=
  "start_date must be in ISO format (YYYY-MM-DD or YYYY-MM-DDTHH:MM:SS) or DD-MM-YYYY format. Got: " ++ s

/-- The start-date parsing block of `calculate_coupon_payout`: strings
containing `T` go to `datetime.fromisoformat`; otherwise strings containing
`-` are tried as `%d-%m-%Y`, then `%Y-%m-%d`, then `%m-%d-%Y`; anything
else (and any parse failure) raises `ValueError` with `startDateErrMsg`. -/
def parse_start_date (s : String) : Except String PDate :=
  if s.data.contains 'T' then
    match parseISODateTimeDate s with
    | some d => .ok d
    | none => .error (startDateErrMsg s)
  else if s.data.contains '-' then
    match strptimeDMY s with
    | some d => .ok d
    | none =>
      match strptimeYMD s with
      | some d => .ok d
      | none =>
        match strptimeMDY s with
        | some d => .ok d
        | none => .error (startDateErrMsg s)
  else .error (startDateErrMsg s)

lemma calculate_coupon_payout_eq (inv r h : ℚ) (f : String) (d : PDate) (n : ℕ)
    (hf : frequency_map (String.mk (listToLower f.data)) = some n) :
    calculate_coupon_payout inv r h f d = .ok {
      investment_amount := inv
      annual_coupon_rate := normalizeRate r
      payout_frequency := f
      payments_per_year := n
      payout_per_payment := round_to 2 (normalizeRate r * inv / n)
      total_payments := truncQ (h * n)
      total_coupon_income := round_to 2 (normalizeRate r * inv / n * (truncQ (h * n) : ℚ))
      effective_annual_return :=
        round_to 4 ((normalizeRate r * inv / n * (truncQ (h * n) : ℚ) / inv) / h)
      payout_schedule := (List.range (truncQ (h * n)).toNat).map fun i =>
        { payment_number := i + 1
          date_ord := (toOrdinal d : ℤ) + truncQ ((365 : ℚ) / n * ((i : ℚ) + 1))
          amount := round_to 2 (normalizeRate r * inv / n) } } := by
  simp [calculate_coupon_payout, hf]

lemma roundHE_intCast (z : ℤ) : roundHE (z : ℚ) = z := by
  simp [roundHE, Int.floor_intCast]

lemma round_to_zero (n : ℕ) : round_to n 0 = 0 := by
  have h := roundHE_intCast 0
  simp at h
  simp [round_to, h]

lemma truncQ_of_Ico (q : ℚ) (h0 : 0 < q) (h1 : q < 1) : truncQ q = 0 := by
  have : ¬ q < 0 := by linarith
  simp [truncQ, this]
  exact ⟨le_of_lt h0, h1⟩

lemma truncQ_nonneg_floor (q : ℚ) (h0 : 0 ≤ q) : truncQ q = ⌊q⌋ := by
  have : ¬ q < 0 := by linarith
  simp [truncQ, this]

lemma normalizeRate_of_gt (r : ℚ) (h : 1 < r) : normalizeRate r = r / 100 := by
  simp [normalizeRate, h]

lemma truncQ_intCast (z : ℤ) : truncQ (z : ℚ) = z := by
  rcases lt_or_le (z : ℚ) 0 with h | h
  · simp [truncQ, h]
    rw [show (-(z:ℚ)) = ((-z : ℤ) : ℚ) by push_cast; ring, Int.floor_intCast]
    ring
  · rw [truncQ_nonneg_floor _ h, Int.floor_intCast]

lemma round_to_intCast (n : ℕ) (z : ℤ) : round_to n (z : ℚ) = z := by
  rw [round_to, show ((z:ℚ) * 10 ^ n) = ((z * 10 ^ n : ℤ) : ℚ) by push_cast; ring,
    roundHE_intCast]
  push_cast
  rw [mul_div_assoc]
  norm_num

/-- C9: with a recognized frequency and `0 < horizonYears * paymentsPerYear < 1`,
`calculate_coupon_payout` succeeds and returns zero total payments, an empty
schedule, zero total coupon income and zero effective annual return, because
`int(horizon_years * payments_per_year)` truncates to zero. -/
theorem C9_fractional_horizon_zero_payments
    (inv rate h : ℚ) (freq : String) (d : PDate) (n : ℕ)
    (_hinv : 0 < inv)
    (hf : frequency_map (String.mk (listToLower freq.data)) = some n)
    (h0 : 0 < h * n) (h1 : h * n < 1) :
    ∃ r, calculate_coupon_payout inv rate h freq d = .ok r ∧
      r.total_payments = 0 ∧ r.payout_schedule = [] ∧
      r.total_coupon_income = 0 ∧ r.effective_annual_return = 0 := by
  have t0 : truncQ (h * n) = 0 := truncQ_of_Ico _ h0 h1
  refine ⟨_, calculate_coupon_payout_eq inv rate h freq d n hf, t0, ?_, ?_, ?_⟩
  · simp [t0]
  · simp [t0, round_to_zero]
  · simp [t0, round_to_zero]

/-- C9 witness: a concrete instantiation (1/8 of a year at annual frequency). -/
theorem C9_fractional_horizon_zero_payments_witness :
    ∃ r, calculate_coupon_payout 1 5 (1/8) "annual" ⟨2025, 1, 1⟩ = .ok r ∧
      r.total_payments = 0 ∧ r.payout_schedule = [] ∧
      r.total_coupon_income = 0 ∧ r.effective_annual_return = 0 :=
  C9_fractional_horizon_zero_payments 1 5 (1/8) "annual" ⟨2025, 1, 1⟩ 1
    (by norm_num) (by decide) (by norm_num) (by norm_num)

/-- C5 counterexample: at `investment=1000, rate=10, horizon=1, monthly`, the
source returns `total_coupon_income = 100.0` (the unrounded per-payment amount
`100/12` times 12, rounded at the end), while the claimed
"round per-payment first, then multiply" formula gives `8.33 * 12 = 99.96`. -/
theorem C5_round_before_total_counterexample :
    (calculate_coupon_payout 1000 10 1 "monthly" ⟨2025, 1, 1⟩).toOption.map
      PayoutResult.total_coupon_income = some 100 ∧
    round_to 2 (normalizeRate 10 * 1000 / 12) * ((truncQ ((1 : ℚ) * 12) : ℤ) : ℚ)
      = 9996 / 100 ∧
    (100 : ℚ) ≠ 9996 / 100 := by
  have hn : normalizeRate 10 = 1 / 10 := by rw [normalizeRate_of_gt 10 (by norm_num)]; norm_num
  have ht : truncQ ((1 : ℚ) * ((12 : ℕ) : ℚ)) = 12 := by
    rw [show ((1:ℚ) * ((12:ℕ):ℚ)) = ((12:ℤ):ℚ) by push_cast; ring, truncQ_intCast]
  have ht' : truncQ ((1 : ℚ) * 12) = 12 := by
    rw [show ((1:ℚ) * 12) = ((12:ℤ):ℚ) by push_cast; ring, truncQ_intCast]
  refine ⟨?_, ?_, by norm_num⟩
  · rw [calculate_coupon_payout_eq 1000 10 1 "monthly" ⟨2025, 1, 1⟩ 12 (by decide)]
    simp only [Except.toOption, Option.map_some, Option.some.injEq]
    rw [hn, ht]
    rw [show ((1:ℚ)/10 * 1000 / ((12:ℕ):ℚ) * ((12:ℤ):ℚ)) = ((100:ℤ):ℚ) by push_cast; norm_num]
    rw [round_to_intCast]
    norm_num
  · rw [hn, ht']
    rw [show ((1:ℚ)/10 * 1000 / 12) = (25/3 : ℚ) by norm_num]
    rw [round_to, roundHE]
    norm_num

/-- C5 amended: the total coupon income is the UNROUNDED per-payment amount
times the number of payments, rounded to 2 decimals only at the end; the
rounded per-payment amount appears only in the displayed fields (the schedule
entries and `payout_per_payment`). -/
theorem C5_total_income_uses_unrounded_per_payment
    (inv rate h : ℚ) (freq : String) (d : PDate) (n : ℕ) (r : PayoutResult)
    (_hinv : 0 < inv) (_hh : 0 < h)
    (hf : frequency_map (String.mk (listToLower freq.data)) = some n)
    (hr : calculate_coupon_payout inv rate h freq d = .ok r) :
    r.total_coupon_income
      = round_to 2 (normalizeRate rate * inv / n * ((r.total_payments : ℤ) : ℚ)) ∧
    r.payout_per_payment = round_to 2 (normalizeRate rate * inv / n) ∧
    ∀ e ∈ r.payout_schedule, e.amount = round_to 2 (normalizeRate rate * inv / n) := by
  rw [calculate_coupon_payout_eq inv rate h freq d n hf] at hr
  injection hr with hr
  subst hr
  refine ⟨rfl, rfl, ?_⟩
  intro e he
  simp only [List.mem_map] at he
  obtain ⟨i, _, rfl⟩ := he
  rfl

/-- C5 amended witness: instantiation at the counterexample's input. -/
theorem C5_total_income_uses_unrounded_per_payment_witness :
    ∃ r, calculate_coupon_payout 1000 10 1 "monthly" ⟨2025, 1, 1⟩ = .ok r ∧
      r.total_coupon_income
        = round_to 2 (normalizeRate 10 * 1000 / 12 * ((r.total_payments : ℤ) : ℚ)) := by
  have hc := calculate_coupon_payout_eq 1000 10 1 "monthly" ⟨2025, 1, 1⟩ 12 (by decide)
  refine ⟨_, hc, ?_⟩
  have h12 : ((12 : ℕ) : ℚ) = (12 : ℚ) := by norm_num
  have := (C5_total_income_uses_unrounded_per_payment 1000 10 1 "monthly" ⟨2025, 1, 1⟩ 12 _
    (by norm_num) (by norm_num) (by decide) hc).1
  rw [this, h12]

/-- C6: `calculate_coupon_payout(100000, 8.0, 1, quarterly, 2025-01-01)`
returns exactly 4 payments of 2000.00 at day offsets 91, 182, 273, 365 from
the start date (the offsets `floor(i * 365 / 4)` for `i = 1..4`), total
coupon income 8000.00 and effective annual return 0.08. -/
theorem C6_quarterly_example :
    calculate_coupon_payout 100000 8 1 "quarterly" ⟨2025, 1, 1⟩ = .ok {
      investment_amount := 100000
      annual_coupon_rate := 8 / 100
      payout_frequency := "quarterly"
      payments_per_year := 4
      payout_per_payment := 2000
      total_payments := 4
      total_coupon_income := 8000
      effective_annual_return := 8 / 100
      payout_schedule := [
        ⟨1, (toOrdinal ⟨2025, 1, 1⟩ : ℤ) + 91, 2000⟩,
        ⟨2, (toOrdinal ⟨2025, 1, 1⟩ : ℤ) + 182, 2000⟩,
        ⟨3, (toOrdinal ⟨2025, 1, 1⟩ : ℤ) + 273, 2000⟩,
        ⟨4, (toOrdinal ⟨2025, 1, 1⟩ : ℤ) + 365, 2000⟩ ] } ∧
    ([91, 182, 273, 365] : List ℤ) = ([1, 2, 3, 4] : List ℤ).map fun i => ⌊((i : ℚ) * 365) / 4⌋ := by
  have hn : normalizeRate 8 = 8 / 100 := by
    rw [normalizeRate_of_gt 8 (by norm_num)]
  have ht : truncQ ((1 : ℚ) * ((4:ℕ):ℚ)) = 4 := by
    rw [show ((1:ℚ) * ((4:ℕ):ℚ)) = ((4:ℤ):ℚ) by push_cast; ring, truncQ_intCast]
  have hr1 : round_to 2 (2000 : ℚ) = 2000 := by
    rw [show (2000:ℚ) = ((2000:ℤ):ℚ) by norm_num, round_to_intCast]
  have hr2 : round_to 2 (8000 : ℚ) = 8000 := by
    rw [show (8000:ℚ) = ((8000:ℤ):ℚ) by norm_num, round_to_intCast]
  have hr3 : round_to 4 ((2:ℚ)/25) = 2/25 := by
    rw [round_to, show ((2:ℚ)/25 * 10 ^ 4) = ((800:ℤ):ℚ) by norm_num, roundHE_intCast]
    norm_num
  have hd1 : truncQ ((365:ℚ)/4) = 91 := by
    rw [truncQ_nonneg_floor _ (by norm_num)]; norm_num
  have hd2 : truncQ ((365:ℚ)/2) = 182 := by
    rw [truncQ_nonneg_floor _ (by norm_num)]; norm_num
  have hd3 : truncQ ((1095:ℚ)/4) = 273 := by
    rw [truncQ_nonneg_floor _ (by norm_num)]; norm_num
  have hd4 : truncQ ((365:ℚ)) = 365 := by
    rw [show (365:ℚ) = ((365:ℤ):ℚ) by norm_num, truncQ_intCast]
  constructor
  · rw [calculate_coupon_payout_eq 100000 8 1 "quarterly" ⟨2025, 1, 1⟩ 4 (by decide)]
    rw [hn, ht]
    norm_num [hr1, hr2, hr3, hd1, hd2, hd3, hd4]
    rw [show List.range (Int.toNat 4) = [0, 1, 2, 3] from rfl]
    simp only [List.map_cons, List.map_nil]
    norm_num [hd1, hd2, hd3, hd4]
  · norm_num [List.map_cons, List.map_nil]

lemma parseActives_ok_eq (asOf : PDate) (records : List Bond) (l : List Bond)
    (h : parseActives asOf records = .ok l) : l = activesOf records asOf := by
  induction records generalizing l with
  | nil =>
    simp [parseActives] at h
    subst h
    simp [activesOf]
  | cons b bs ih =>
    simp only [parseActives] at h
    cases hp : strptimeDMY b.REDEMPTION with
    | none => rw [hp] at h; simp at h
    | some d =>
      rw [hp] at h
      cases hr : parseActives asOf bs with
      | error e => rw [hr] at h; simp at h
      | ok rest =>
        rw [hr] at h
        simp only [Except.ok.injEq] at h
        have hrest := ih rest hr
        subst hrest
        rw [← h]
        by_cases hlt : toOrdinal asOf + 380 < toOrdinal d <;>
          simp [activesOf, List.filter_cons, isActive, hp, hlt]

lemma parseActives_all_parse (asOf : PDate) (records : List Bond) (l : List Bond)
    (h : parseActives asOf records = .ok l) :
    ∀ b ∈ records, (strptimeDMY b.REDEMPTION).isSome = true := by
  induction records generalizing l with
  | nil => simp
  | cons b bs ih =>
    intro x hx
    simp only [parseActives] at h
    cases hp : strptimeDMY b.REDEMPTION with
    | none => rw [hp] at h; simp at h
    | some d =>
      rw [hp] at h
      cases hr : parseActives asOf bs with
      | error e => rw [hr] at h; simp at h
      | ok rest =>
        rcases List.mem_cons.mp hx with rfl | hxs
        · simp [hp]
        · exact ih rest hr x hxs

lemma parseActives_ok_of_all_parse (asOf : PDate) (records : List Bond)
    (h : ∀ b ∈ records, (strptimeDMY b.REDEMPTION).isSome = true) :
    parseActives asOf records = .ok (activesOf records asOf) := by
  induction records with
  | nil => simp [parseActives, activesOf]
  | cons b bs ih =>
    have hb := h b (by simp)
    cases hp : strptimeDMY b.REDEMPTION with
    | none => rw [hp] at hb; simp at hb
    | some d =>
      have hrest : parseActives asOf bs = .ok (activesOf bs asOf) :=
        ih (fun x hx => h x (List.mem_cons_of_mem _ hx))
      simp only [parseActives, hp, hrest]
      by_cases hlt : toOrdinal asOf + 380 < toOrdinal d <;>
        simp [activesOf, List.filter_cons, isActive, hp, hlt]

lemma parseActives_error_of_bad (asOf : PDate) (records : List Bond) (b : Bond)
    (hb : b ∈ records) (hbad : strptimeDMY b.REDEMPTION = none) :
    ∃ e, parseActives asOf records = .error e := by
  induction records with
  | nil => simp at hb
  | cons x xs ih =>
    rcases List.mem_cons.mp hb with rfl | hxs
    · exact ⟨"ValueError: time data " ++ b.REDEMPTION ++ " does not match format %d-%m-%Y",
        by simp [parseActives, hbad]⟩
    · cases hp : strptimeDMY x.REDEMPTION with
      | none =>
        exact ⟨"ValueError: time data " ++ x.REDEMPTION ++ " does not match format %d-%m-%Y",
          by simp [parseActives, hp]⟩
      | some d =>
        obtain ⟨e, he⟩ := ih hxs
        exact ⟨e, by simp [parseActives, hp, he]⟩

lemma dedupISIN_sublist (seen : List String) (l : List Bond) :
    (dedupISIN seen l).Sublist l := by
  induction l generalizing seen with
  | nil => simp [dedupISIN]
  | cons b bs ih =>
    by_cases hb : b.ISIN ∈ seen
    · simp only [dedupISIN, if_pos hb]
      exact (ih seen).trans (List.sublist_cons_self b bs)
    · simp only [dedupISIN, if_neg hb]
      exact (ih (b.ISIN :: seen)).cons₂ b

lemma dedupISIN_notin_seen (seen : List String) (l : List Bond) :
    ∀ b ∈ dedupISIN seen l, b.ISIN ∉ seen := by
  induction l generalizing seen with
  | nil => simp [dedupISIN]
  | cons x xs ih =>
    intro b hb
    by_cases hx : x.ISIN ∈ seen
    · rw [dedupISIN, if_pos hx] at hb
      exact ih seen b hb
    · rw [dedupISIN, if_neg hx] at hb
      rcases List.mem_cons.mp hb with rfl | hbs
      · exact hx
      · have := ih (x.ISIN :: seen) b hbs
        exact fun hc => this (List.mem_cons_of_mem _ hc)

lemma dedupISIN_nodup (seen : List String) (l : List Bond) :
    ((dedupISIN seen l).map Bond.ISIN).Nodup := by
  induction l generalizing seen with
  | nil => simp [dedupISIN]
  | cons x xs ih =>
    by_cases hx : x.ISIN ∈ seen
    · rw [dedupISIN, if_pos hx]; exact ih seen
    · rw [dedupISIN, if_neg hx]
      simp only [List.map_cons, List.nodup_cons]
      refine ⟨?_, ih (x.ISIN :: seen)⟩
      intro hc
      simp only [List.mem_map] at hc
      obtain ⟨b, hb, hisin⟩ := hc
      exact dedupISIN_notin_seen _ _ b hb (by rw [hisin]; simp)

lemma dedupISIN_first (seen : List String) (l : List Bond) :
    ∀ b ∈ dedupISIN seen l, l.find? (fun x => x.ISIN == b.ISIN) = some b := by
  induction l generalizing seen with
  | nil => simp [dedupISIN]
  | cons x xs ih =>
    intro b hb
    by_cases hx : x.ISIN ∈ seen
    · rw [dedupISIN, if_pos hx] at hb
      have hne : b.ISIN ∉ seen := dedupISIN_notin_seen seen xs b hb
      have hxb : (x.ISIN == b.ISIN) = false := by
        rw [beq_eq_false_iff_ne]
        intro hc
        exact hne (hc ▸ hx)
      rw [List.find?_cons, hxb]
      exact ih seen b hb
    · rw [dedupISIN, if_neg hx] at hb
      rcases List.mem_cons.mp hb with rfl | hbs
      · rw [List.find?_cons, beq_self_eq_true]
      · have hne := dedupISIN_notin_seen (x.ISIN :: seen) xs b hbs
        have hxb : (x.ISIN == b.ISIN) = false := by
          rw [beq_eq_false_iff_ne]
          intro hc
          exact hne (by rw [← hc]; simp)
        rw [List.find?_cons, hxb]
        exact ih (x.ISIN :: seen) b hbs

/-- C2: the loader's active filter is a strict inequality at the 380-day
margin: every retained record's redemption date parses and lies strictly
more than 380 days after the as-of date; a record at exactly `asOf + 380`
days is excluded while `asOf + 381` days is included. -/
theorem C2_active_filter_strict_at_380 :
    (∀ (records : List Bond) (asOf : PDate) (out : List Bond) (b : Bond),
      load_and_prepare_bonds records asOf = .ok out → b ∈ out →
      ∃ d, strptimeDMY b.REDEMPTION = some d ∧ toOrdinal asOf + 380 < toOrdinal d) ∧
    (∀ (asOf : PDate) (b : Bond) (d : PDate),
      strptimeDMY b.REDEMPTION = some d → toOrdinal d = toOrdinal asOf + 380 →
      load_and_prepare_bonds [b] asOf = .ok []) ∧
    (∀ (asOf : PDate) (b : Bond) (d : PDate),
      strptimeDMY b.REDEMPTION = some d → toOrdinal d = toOrdinal asOf + 381 →
      load_and_prepare_bonds [b] asOf = .ok [b]) := by
  refine ⟨?_, ?_, ?_⟩
  · intro records asOf out b hload hb
    rw [load_and_prepare_bonds] at hload
    cases hpa : parseActives asOf records with
    | error e => rw [hpa] at hload; simp at hload
    | ok actives =>
      rw [hpa] at hload
      simp only [Except.ok.injEq] at hload
      have hact : actives = activesOf records asOf := parseActives_ok_eq asOf records actives hpa
      have hmem : b ∈ activesOf records asOf := by
        rw [← hact]
        exact (dedupISIN_sublist [] actives).subset (hload ▸ hb)
      have hfil := (List.mem_filter.mp hmem).2
      rw [isActive] at hfil
      cases hp : strptimeDMY b.REDEMPTION with
      | none => rw [hp] at hfil; simp at hfil
      | some d =>
        rw [hp] at hfil
        exact ⟨d, rfl, by simpa using hfil⟩
  · intro asOf b d hd heq
    have hnlt : ¬ (toOrdinal asOf + 380 < toOrdinal d) := by omega
    simp [load_and_prepare_bonds, parseActives, hd, hnlt, dedupISIN]
  · intro asOf b d hd heq
    have hlt : toOrdinal asOf + 380 < toOrdinal d := by omega
    simp [load_and_prepare_bonds, parseActives, hd, hlt, dedupISIN]

/-- C2 witness: with `asOf = 2025-01-01`, a bond redeeming `16-01-2026`
(exactly `asOf + 380` days) is excluded and one redeeming `17-01-2026`
(`asOf + 381` days) is retained. -/
theorem C2_active_filter_strict_at_380_witness :
    load_and_prepare_bonds [⟨"X", "8%", "AA", "Q", "16-01-2026"⟩] ⟨2025, 1, 1⟩ = .ok [] ∧
    load_and_prepare_bonds [⟨"X", "8%", "AA", "Q", "17-01-2026"⟩] ⟨2025, 1, 1⟩
      = .ok [⟨"X", "8%", "AA", "Q", "17-01-2026"⟩] :=
  ⟨C2_active_filter_strict_at_380.2.1 ⟨2025, 1, 1⟩ ⟨"X", "8%", "AA", "Q", "16-01-2026"⟩
      ⟨2026, 1, 16⟩ (by decide) (by decide),
   C2_active_filter_strict_at_380.2.2 ⟨2025, 1, 1⟩ ⟨"X", "8%", "AA", "Q", "17-01-2026"⟩
      ⟨2026, 1, 17⟩ (by decide) (by decide)⟩

/-- C3: for every input catalog, a successful load lists each ISIN at most
once; the output is a sublist of the filtered (active) records, which are a
sublist of the input (so relative input order is preserved); each retained
record is the first active occurrence of its ISIN; and duplicates never
cause an error (a load fails only on unparseable dates). -/
theorem C3_dedup_first_seen_in_order :
    (∀ (records : List Bond) (asOf : PDate) (out : List Bond),
      load_and_prepare_bonds records asOf = .ok out →
      (out.map Bond.ISIN).Nodup ∧
      out.Sublist (activesOf records asOf) ∧
      (activesOf records asOf).Sublist records ∧
      ∀ b ∈ out, (activesOf records asOf).find? (fun x => x.ISIN == b.ISIN) = some b) ∧
    (∀ (records : List Bond) (asOf : PDate),
      (∀ b ∈ records, (strptimeDMY b.REDEMPTION).isSome = true) →
      ∃ out, load_and_prepare_bonds records asOf = .ok out) := by
  constructor
  · intro records asOf out hload
    rw [load_and_prepare_bonds] at hload
    cases hpa : parseActives asOf records with
    | error e => rw [hpa] at hload; simp at hload
    | ok actives =>
      rw [hpa] at hload
      simp only [Except.ok.injEq] at hload
      have hact : actives = activesOf records asOf := parseActives_ok_eq asOf records actives hpa
      rw [hact] at hload
      subst hload
      exact ⟨dedupISIN_nodup [] (activesOf records asOf),
        dedupISIN_sublist [] (activesOf records asOf),
        List.filter_sublist records, dedupISIN_first [] (activesOf records asOf)⟩
  · intro records asOf hall
    exact ⟨dedupISIN [] (activesOf records asOf),
      by simp [load_and_prepare_bonds, parseActives_ok_of_all_parse asOf records hall]⟩

/-- C3 witness: a catalog with a duplicated ISIN `X` loads without error and
keeps only the first `X` record and the `Y` record, in input order. -/
theorem C3_dedup_first_seen_in_order_witness :
    (∃ out, load_and_prepare_bonds
        [⟨"X", "8%", "AA", "Q", "01-01-2030"⟩, ⟨"X", "9%", "AA", "Q", "01-01-2031"⟩,
         ⟨"Y", "7%", "A", "M", "01-01-2032"⟩] ⟨2025, 1, 1⟩ = .ok out) ∧
    (([⟨"X", "8%", "AA", "Q", "01-01-2030"⟩, ⟨"Y", "7%", "A", "M", "01-01-2032"⟩] :
        List Bond).map Bond.ISIN).Nodup :=
  ⟨C3_dedup_first_seen_in_order.2
      [⟨"X", "8%", "AA", "Q", "01-01-2030"⟩, ⟨"X", "9%", "AA", "Q", "01-01-2031"⟩,
       ⟨"Y", "7%", "A", "M", "01-01-2032"⟩] ⟨2025, 1, 1⟩ (by decide),
   (C3_dedup_first_seen_in_order.1
      [⟨"X", "8%", "AA", "Q", "01-01-2030"⟩, ⟨"X", "9%", "AA", "Q", "01-01-2031"⟩,
       ⟨"Y", "7%", "A", "M", "01-01-2032"⟩] ⟨2025, 1, 1⟩
      [⟨"X", "8%", "AA", "Q", "01-01-2030"⟩, ⟨"Y", "7%", "A", "M", "01-01-2032"⟩]
      (by decide)).1⟩

/-- C8: an unparseable redemption date in any record makes the whole load
fail with an error, and conversely a successful load implies every input
record's redemption date parsed — an unparseable record is never silently
dropped. -/
theorem C8_unparseable_date_fails_load :
    (∀ (records : List Bond) (asOf : PDate) (b : Bond),
      b ∈ records → strptimeDMY b.REDEMPTION = none →
      ∃ e, load_and_prepare_bonds records asOf = .error e) ∧
    (∀ (records : List Bond) (asOf : PDate) (out : List Bond),
      load_and_prepare_bonds records asOf = .ok out →
      ∀ b ∈ records, (strptimeDMY b.REDEMPTION).isSome = true) := by
  constructor
  · intro records asOf b hb hbad
    obtain ⟨e, he⟩ := parseActives_error_of_bad asOf records b hb hbad
    exact ⟨e, by simp [load_and_prepare_bonds, he]⟩
  · intro records asOf out hload
    rw [load_and_prepare_bonds] at hload
    cases hpa : parseActives asOf records with
    | error e => rw [hpa] at hload; simp at hload
    | ok actives => exact parseActives_all_parse asOf records actives hpa

/-- C8 witness: a record whose redemption date is in `YYYY-MM-DD` form (not
the required `DD-MM-YYYY`) makes the load fail. -/
theorem C8_unparseable_date_fails_load_witness :
    ∃ e, load_and_prepare_bonds [⟨"X", "8%", "AA", "Q", "2030-01-01"⟩] ⟨2025, 1, 1⟩
      = .error e :=
  C8_unparseable_date_fails_load.1 [⟨"X", "8%", "AA", "Q", "2030-01-01"⟩] ⟨2025, 1, 1⟩
    ⟨"X", "8%", "AA", "Q", "2030-01-01"⟩ (by decide) (by decide)

lemma coupon_score_bounds (s : String) (u : ℚ) (hu : 0 < u) (q : ℚ)
    (h : coupon_score s u = .ok q) : 0 ≤ q ∧ q ≤ 1 := by
  rw [coupon_score, if_neg (ne_of_gt hu)] at h
  simp only [Except.ok.injEq] at h
  subst h
  constructor
  · exact le_max_left 0 _
  · refine max_le (by norm_num) ?_
    have : 0 ≤ |extract_coupon_value s - u| / u :=
      div_nonneg (abs_nonneg _) (le_of_lt hu)
    linarith

lemma rating_score_cases (t u : String) (q : ℚ) (h : rating_score t u = .ok q) :
    q = 0 ∨ q = 1/2 ∨ q = 1 := by
  rw [rating_score] at h
  by_cases heq : t = u
  · rw [if_pos heq] at h
    simp only [Except.ok.injEq] at h
    right; right; exact h.symm
  · rw [if_neg heq] at h
    cases hu : u.data with
    | nil => rw [hu] at h; simp at h
    | cons c cs =>
      rw [hu] at h
      simp only [Except.ok.injEq] at h
      cases ht : t.data with
      | nil => rw [ht] at h; left; exact h.symm
      | cons b bs =>
        rw [ht] at h
        by_cases hbc : b = c
        · simp only [hbc, if_true, reduceIte] at h
          right; left; exact h.symm
        · simp only [hbc, if_false, reduceIte] at h
          left; exact h.symm

lemma credit_rating_term_bounds (b : Bond) (p : Prefs) (q : ℚ)
    (h : credit_rating_term b p = .ok q) : 0 ≤ q ∧ q ≤ 1 := by
  rw [credit_rating_term] at h
  cases hs : pySplitWS b.CREDIT_RATING_CREDIT_RATING_AGENCY with
  | nil => rw [hs] at h; simp at h
  | cons t ts =>
    rw [hs] at h
    rcases rating_score_cases t p.rating q h with rfl | rfl | rfl <;> norm_num

lemma interest_score_bounds (bf uf : String) :
    0 ≤ interest_score bf uf ∧ interest_score bf uf ≤ 1 := by
  rw [interest_score]
  split <;> norm_num

lemma redemption_score_bounds (s : String) (y : ℤ) (q : ℚ)
    (h : redemption_score s y = .ok q) : 0 ≤ q ∧ q ≤ 1 := by
  rw [redemption_score] at h
  cases hp : pyIntParse (String.mk ((splitOnChar '-' s.data).getLastD [])) with
  | none => rw [hp] at h; simp at h
  | some yr =>
    rw [hp] at h
    simp only [Except.ok.injEq] at h
    subst h
    constructor
    · exact le_max_left 0 _
    · refine max_le (by norm_num) ?_
      have : (0:ℚ) ≤ |(yr : ℚ) - (y : ℚ)| / 10 := by positivity
      linarith

lemma bond_score_inversion (b : Bond) (p : Prefs) (s : ℚ)
    (h : bond_score b p = .ok s) :
    ∃ c r d, coupon_score b.COUPON_RATE p.coupon_rate = .ok c ∧
      credit_rating_term b p = .ok r ∧
      redemption_score b.REDEMPTION p.redemption_year = .ok d ∧
      s = 3/10 * c + 3/10 * r
          + 2/10 * interest_score b.FREQUENCY_OF_THE_INTEREST_PAYMENT p.interest_frequency
          + 2/10 * d := by
  rw [bond_score] at h
  cases hc : coupon_score b.COUPON_RATE p.coupon_rate with
  | error e => rw [hc] at h; simp at h
  | ok c =>
    rw [hc] at h
    cases hr : credit_rating_term b p with
    | error e => rw [hr] at h; simp at h
    | ok r =>
      rw [hr] at h
      cases hd : redemption_score b.REDEMPTION p.redemption_year with
      | error e => rw [hd] at h; simp at h
      | ok d =>
        rw [hd] at h
        simp only [Except.ok.injEq] at h
        exact ⟨c, r, d, rfl, rfl, rfl, h.symm⟩

/-- C1: with a positive target coupon rate and non-degenerate rating strings,
every defined sub-score (coupon match, rating match, frequency match,
redemption proximity) lies in `[0, 1]`, and hence every score `bond_score`
returns lies in `[0, 1]` — in particular it is never negative. -/
theorem C1_scores_lie_in_unit_interval (b : Bond) (p : Prefs)
    (hu : 0 < p.coupon_rate) (_hr : p.rating ≠ "")
    (_hc : pySplitWS b.CREDIT_RATING_CREDIT_RATING_AGENCY ≠ []) :
    (∀ q, coupon_score b.COUPON_RATE p.coupon_rate = .ok q → 0 ≤ q ∧ q ≤ 1) ∧
    (∀ q, credit_rating_term b p = .ok q → 0 ≤ q ∧ q ≤ 1) ∧
    (0 ≤ interest_score b.FREQUENCY_OF_THE_INTEREST_PAYMENT p.interest_frequency ∧
      interest_score b.FREQUENCY_OF_THE_INTEREST_PAYMENT p.interest_frequency ≤ 1) ∧
    (∀ q, redemption_score b.REDEMPTION p.redemption_year = .ok q → 0 ≤ q ∧ q ≤ 1) ∧
    (∀ s, bond_score b p = .ok s → 0 ≤ s ∧ s ≤ 1) := by
  refine ⟨fun q h => coupon_score_bounds _ _ hu q h,
          fun q h => credit_rating_term_bounds b p q h,
          interest_score_bounds _ _,
          fun q h => redemption_score_bounds _ _ q h, ?_⟩
  intro s h
  obtain ⟨c, r, d, hc, hr2, hd, rfl⟩ := bond_score_inversion b p s h
  obtain ⟨hc0, hc1⟩ := coupon_score_bounds _ _ hu c hc
  obtain ⟨hr0, hr1⟩ := credit_rating_term_bounds b p r hr2
  obtain ⟨hi0, hi1⟩ := interest_score_bounds
    b.FREQUENCY_OF_THE_INTEREST_PAYMENT p.interest_frequency
  obtain ⟨hd0, hd1⟩ := redemption_score_bounds _ _ d hd
  constructor <;> linarith

/-- C1 witness: a concrete bond/preferences pair whose total score is 1. -/
theorem C1_scores_lie_in_unit_interval_witness : (0:ℚ) ≤ 1 ∧ (1:ℚ) ≤ 1 :=
  (C1_scores_lie_in_unit_interval
      ⟨"X", "8.5% p.a.", "AA Stable", "Quarterly", "05-06-2030"⟩
      ⟨85/10, "AA", "quarterly", 2030⟩
      (by norm_num) (by decide) (by decide)).2.2.2.2 1
    (by with_unfolding_all decide)

lemma wordsAux_all_ws (l : List Char) (h : l.all pyIsSpace = true) :
    wordsAux l [] = [] := by
  induction l with
  | nil => simp [wordsAux]
  | cons c cs ih =>
    simp only [List.all_cons, Bool.and_eq_true] at h
    simp [wordsAux, h.1, ih h.2]

lemma pySplitWS_all_ws (s : String) (h : s.data.all pyIsSpace = true) :
    pySplitWS s = [] := by
  simp [pySplitWS, wordsAux_all_ws s.data h]

lemma wordsAux_words_ne_nil (l : List Char) :
    ∀ (acc : List Char), ∀ w ∈ wordsAux l acc, w ≠ [] := by
  induction l with
  | nil =>
    intro acc w hw
    by_cases hacc : acc = []
    · simp [wordsAux, hacc] at hw
    · rw [wordsAux, if_neg hacc] at hw
      simp only [List.mem_singleton] at hw
      subst hw
      simpa using hacc
  | cons c cs ih =>
    intro acc w hw
    rw [wordsAux] at hw
    by_cases hws : pyIsSpace c
    · rw [if_pos hws] at hw
      by_cases hacc : acc = []
      · rw [if_pos hacc] at hw
        exact ih [] w hw
      · rw [if_neg hacc] at hw
        rcases List.mem_cons.mp hw with rfl | hw2
        · simpa using hacc
        · exact ih [] w hw2
    · rw [if_neg hws] at hw
      exact ih (c :: acc) w hw

lemma pySplitWS_token_ne_empty (s : String) : ∀ t ∈ pySplitWS s, t ≠ "" := by
  intro t ht
  simp only [pySplitWS, List.mem_map] at ht
  obtain ⟨w, hw, rfl⟩ := ht
  have hne := wordsAux_words_ne_nil s.data [] w hw
  intro hc
  exact hne (congrArg String.data hc)

lemma bond_score_error_of_rating_error (b : Bond) (p : Prefs) (e : String)
    (h : credit_rating_term b p = .error e) : ∃ e2, bond_score b p = .error e2 := by
  rw [bond_score]
  cases hc : coupon_score b.COUPON_RATE p.coupon_rate with
  | error e1 => exact ⟨e1, rfl⟩
  | ok c => rw [h]; exact ⟨e, rfl⟩

/-- C10: `bond_score` is not total. Whenever the bond's credit-rating text is
empty or whitespace-only (`split()[0]` fails) or the target rating is empty
while the credit text has a token (`user_rating[0]` fails), `bond_score`
raises instead of returning a score; when the credit text has a whitespace
token and the target rating is non-empty, the rating computation always
returns a value, so that error branch is unreachable. -/
theorem C10_bond_score_not_total :
    (∀ (b : Bond) (p : Prefs),
      b.CREDIT_RATING_CREDIT_RATING_AGENCY.data.all pyIsSpace = true →
      ∃ e, bond_score b p = .error e) ∧
    (∀ (b : Bond) (p : Prefs),
      p.rating = "" → pySplitWS b.CREDIT_RATING_CREDIT_RATING_AGENCY ≠ [] →
      ∃ e, bond_score b p = .error e) ∧
    (∀ (b : Bond) (p : Prefs),
      pySplitWS b.CREDIT_RATING_CREDIT_RATING_AGENCY ≠ [] → p.rating ≠ "" →
      ∃ q, credit_rating_term b p = .ok q) := by
  refine ⟨?_, ?_, ?_⟩
  · intro b p hws
    refine bond_score_error_of_rating_error b p "IndexError: list index out of range" ?_
    rw [credit_rating_term, pySplitWS_all_ws _ hws]
  · intro b p hrat hne
    cases hs : pySplitWS b.CREDIT_RATING_CREDIT_RATING_AGENCY with
    | nil => exact absurd hs hne
    | cons t ts =>
      have htne : t ≠ "" := pySplitWS_token_ne_empty _ t (hs ▸ List.mem_cons_self t ts)
      refine bond_score_error_of_rating_error b p "IndexError: string index out of range" ?_
      simp only [credit_rating_term, hs]
      rw [rating_score, if_neg (by rw [hrat]; exact htne), hrat]
  · intro b p hne hrat
    cases hs : pySplitWS b.CREDIT_RATING_CREDIT_RATING_AGENCY with
    | nil => exact absurd hs hne
    | cons t ts =>
      simp only [credit_rating_term, hs]
      rw [rating_score]
      by_cases heq : t = p.rating
      · rw [if_pos heq]; exact ⟨1, rfl⟩
      · rw [if_neg heq]
        cases hu : p.rating.data with
        | nil =>
          refine absurd (String.ext ?_) hrat
          rw [hu]
        | cons c cs =>
          cases ht : t.data with
          | nil => exact ⟨0, rfl⟩
          | cons x xs => exact ⟨if x = c then 1/2 else 0, rfl⟩

/-- C10 witness: a whitespace-only credit rating (spaces, and a lone
vertical tab U+000B, whitespace to Python `split()` though not an ASCII
space), and an empty target rating each make `bond_score` raise, while
well-formed strings reach the rating score. -/
theorem C10_bond_score_not_total_witness :
    (∃ e, bond_score ⟨"X", "8%", "   ", "Q", "05-06-2030"⟩ ⟨8, "AA", "q", 2030⟩
      = .error e) ∧
    (∃ e, bond_score ⟨"X", "8%", "\x0b", "Q", "05-06-2030"⟩ ⟨8, "AA", "q", 2030⟩
      = .error e) ∧
    (∃ e, bond_score ⟨"X", "8%", "AA Stable", "Q", "05-06-2030"⟩ ⟨8, "", "q", 2030⟩
      = .error e) ∧
    (∃ q, credit_rating_term ⟨"X", "8%", "AA Stable", "Q", "05-06-2030"⟩
      ⟨8, "AA", "q", 2030⟩ = .ok q) :=
  ⟨C10_bond_score_not_total.1 ⟨"X", "8%", "   ", "Q", "05-06-2030"⟩ ⟨8, "AA", "q", 2030⟩
      (by decide),
   C10_bond_score_not_total.1 ⟨"X", "8%", "\x0b", "Q", "05-06-2030"⟩ ⟨8, "AA", "q", 2030⟩
      (by decide),
   C10_bond_score_not_total.2.1 ⟨"X", "8%", "AA Stable", "Q", "05-06-2030"⟩
      ⟨8, "", "q", 2030⟩ rfl (by decide),
   C10_bond_score_not_total.2.2 ⟨"X", "8%", "AA Stable", "Q", "05-06-2030"⟩
      ⟨8, "AA", "q", 2030⟩ (by decide) (by decide)⟩

lemma insertDescBond_perm (p : Prefs) (x : Bond) (l : List Bond) :
    (insertDescBond p x l).Perm (x :: l) := by
  induction l with
  | nil => simp [insertDescBond]
  | cons y ys ih =>
    rw [insertDescBond]
    by_cases hxy : scoreKey p x < scoreKey p y
    · rw [if_pos hxy]
      exact (ih.cons y).trans (List.Perm.swap x y ys)
    · rw [if_neg hxy]

lemma sortBonds_perm (p : Prefs) (l : List Bond) : (sortBonds p l).Perm l := by
  induction l with
  | nil => simp [sortBonds]
  | cons x xs ih =>
    rw [sortBonds]
    exact (insertDescBond_perm p x (sortBonds p xs)).trans (ih.cons x)

lemma insertDescBond_pairwise (p : Prefs) (x : Bond) (l : List Bond)
    (hl : l.Pairwise (fun a b => scoreKey p b ≤ scoreKey p a)) :
    (insertDescBond p x l).Pairwise (fun a b => scoreKey p b ≤ scoreKey p a) := by
  induction l with
  | nil => simp [insertDescBond]
  | cons y ys ih =>
    rw [List.pairwise_cons] at hl
    rw [insertDescBond]
    by_cases hxy : scoreKey p x < scoreKey p y
    · rw [if_pos hxy]
      rw [List.pairwise_cons]
      refine ⟨?_, ih hl.2⟩
      intro b hb
      rcases List.mem_cons.mp ((insertDescBond_perm p x ys).mem_iff.mp hb) with rfl | h
      · exact le_of_lt hxy
      · exact hl.1 b h
    · rw [if_neg hxy]
      rw [List.pairwise_cons]
      refine ⟨?_, List.pairwise_cons.mpr hl⟩
      intro b hb
      rcases List.mem_cons.mp hb with rfl | hbs
      · exact le_of_not_lt hxy
      · exact le_trans (hl.1 b hbs) (le_of_not_lt hxy)

lemma sortBonds_sorted (p : Prefs) (l : List Bond) :
    (sortBonds p l).Pairwise (fun a b => scoreKey p b ≤ scoreKey p a) := by
  induction l with
  | nil => simp [sortBonds]
  | cons x xs ih =>
    rw [sortBonds]
    exact insertDescBond_pairwise p x (sortBonds p xs) ih

lemma insertDescBond_filter (p : Prefs) (x : Bond) (l : List Bond) (q : ℚ) :
    (insertDescBond p x l).filter (fun b => decide (scoreKey p b = q))
      = (x :: l).filter (fun b => decide (scoreKey p b = q)) := by
  induction l with
  | nil => simp [insertDescBond]
  | cons y ys ih =>
    rw [insertDescBond]
    by_cases hxy : scoreKey p x < scoreKey p y
    · rw [if_pos hxy]
      by_cases hy : scoreKey p y = q
      · by_cases hx : scoreKey p x = q
        · exfalso
          rw [hx, hy] at hxy
          exact lt_irrefl q hxy
        · simp [List.filter_cons, hx, hy, ih]
      · by_cases hx : scoreKey p x = q
        · simp [List.filter_cons, hx, hy, ih]
        · simp [List.filter_cons, hx, hy, ih]
    · rw [if_neg hxy]

lemma sortBonds_filter (p : Prefs) (l : List Bond) (q : ℚ) :
    (sortBonds p l).filter (fun b => decide (scoreKey p b = q))
      = l.filter (fun b => decide (scoreKey p b = q)) := by
  induction l with
  | nil => simp [sortBonds]
  | cons x xs ih =>
    rw [sortBonds, insertDescBond_filter]
    by_cases hx : scoreKey p x = q <;> simp [List.filter_cons, hx, ih]

lemma sortBonds_of_pairwise (p : Prefs) (l : List Bond)
    (hl : l.Pairwise (fun a b => scoreKey p b ≤ scoreKey p a)) :
    sortBonds p l = l := by
  induction l with
  | nil => simp [sortBonds]
  | cons x xs ih =>
    rw [List.pairwise_cons] at hl
    rw [sortBonds, ih hl.2]
    cases xs with
    | nil => simp [insertDescBond]
    | cons y ys =>
      rw [insertDescBond, if_neg (not_lt.mpr (hl.1 y (List.mem_cons_self y ys)))]

lemma computeScores_ok_defined (p : Prefs) (l : List Bond) (qs : List ℚ)
    (h : computeScores p l = .ok qs) : ∀ b ∈ l, ∃ q, bond_score b p = .ok q := by
  induction l generalizing qs with
  | nil => simp
  | cons x xs ih =>
    intro b hb
    rw [computeScores] at h
    cases hx : bond_score x p with
    | error e => rw [hx] at h; simp at h
    | ok q0 =>
      rw [hx] at h
      cases hr : computeScores p xs with
      | error e => rw [hr] at h; simp at h
      | ok rest =>
        rcases List.mem_cons.mp hb with rfl | hbs
        · exact ⟨q0, hx⟩
        · exact ih rest hr b hbs

lemma computeScores_ok_of_defined (p : Prefs) (l : List Bond)
    (h : ∀ b ∈ l, ∃ q, bond_score b p = .ok q) :
    ∃ qs, computeScores p l = .ok qs := by
  induction l with
  | nil => exact ⟨[], rfl⟩
  | cons x xs ih =>
    obtain ⟨q0, hq0⟩ := h x (List.mem_cons_self x xs)
    obtain ⟨qs, hqs⟩ := ih fun b hb => h b (List.mem_cons_of_mem x hb)
    exact ⟨q0 :: qs, by rw [computeScores, hq0, hqs]⟩

lemma get_bond_recommendations_ok_elim (bonds : List Bond) (p : Prefs) (out : List Bond)
    (h : get_bond_recommendations bonds p = .ok out) :
    out = sortBonds p bonds ∧ ∀ b ∈ bonds, ∃ q, bond_score b p = .ok q := by
  rw [get_bond_recommendations] at h
  cases hcs : computeScores p bonds with
  | error e => rw [hcs] at h; simp at h
  | ok qs =>
    rw [hcs] at h
    simp only [Except.ok.injEq] at h
    exact ⟨h.symm, computeScores_ok_defined p bonds qs hcs⟩

lemma scoreKey_eq_of_ok (p : Prefs) (b : Bond) (q : ℚ)
    (h : bond_score b p = .ok q) : scoreKey p b = q := by
  rw [scoreKey, h]

/-- C4: whenever the ranker succeeds (every bond's score is defined), it
returns a permutation of the input sorted by score descending, ties keep
their relative input order (stability, stated as: filtering the output at
any score value gives the same list as filtering the input), re-ranking the
output with the same preferences returns it unchanged (idempotence), and the
empty list yields the empty list without error. -/
theorem C4_ranker_stable_descending_idempotent :
    (∀ (bonds : List Bond) (p : Prefs) (out : List Bond),
      get_bond_recommendations bonds p = .ok out →
      out.Perm bonds ∧
      out.Pairwise (fun a b => ∀ qa qb,
        bond_score a p = .ok qa → bond_score b p = .ok qb → qb ≤ qa) ∧
      (∀ q : ℚ, out.filter (fun b => decide (scoreKey p b = q))
        = bonds.filter (fun b => decide (scoreKey p b = q))) ∧
      get_bond_recommendations out p = .ok out) ∧
    (∀ p : Prefs, get_bond_recommendations [] p = .ok []) := by
  constructor
  · intro bonds p out h
    obtain ⟨hout, hdef⟩ := get_bond_recommendations_ok_elim bonds p out h
    subst hout
    refine ⟨sortBonds_perm p bonds, ?_, fun q => sortBonds_filter p bonds q, ?_⟩
    · refine (sortBonds_sorted p bonds).imp ?_
      intro a b hab qa qb hqa hqb
      rw [scoreKey_eq_of_ok p a qa hqa, scoreKey_eq_of_ok p b qb hqb] at hab
      exact hab
    · have hdef2 : ∀ b ∈ sortBonds p bonds, ∃ q, bond_score b p = .ok q :=
        fun b hb => hdef b ((sortBonds_perm p bonds).mem_iff.mp hb)
      obtain ⟨qs, hqs⟩ := computeScores_ok_of_defined p (sortBonds p bonds) hdef2
      rw [get_bond_recommendations, hqs,
        sortBonds_of_pairwise p (sortBonds p bonds) (sortBonds_sorted p bonds)]
  · intro p
    rfl

/-- C4 witness: re-ranking the already-ranked two-bond list is the identity
(the two bonds score 1 and 0.85 under the given preferences). -/
theorem C4_ranker_stable_descending_idempotent_witness :
    get_bond_recommendations
      [⟨"B", "10%", "AA", "Quarterly", "05-06-2030"⟩,
       ⟨"A", "5%", "AA", "Quarterly", "05-06-2030"⟩]
      ⟨10, "AA", "quarterly", 2030⟩
      = .ok [⟨"B", "10%", "AA", "Quarterly", "05-06-2030"⟩,
             ⟨"A", "5%", "AA", "Quarterly", "05-06-2030"⟩] :=
  (C4_ranker_stable_descending_idempotent.1
    [⟨"A", "5%", "AA", "Quarterly", "05-06-2030"⟩,
     ⟨"B", "10%", "AA", "Quarterly", "05-06-2030"⟩]
    ⟨10, "AA", "quarterly", 2030⟩
    [⟨"B", "10%", "AA", "Quarterly", "05-06-2030"⟩,
     ⟨"A", "5%", "AA", "Quarterly", "05-06-2030"⟩]
    (by with_unfolding_all decide)).2.2.2

/-- C7 counterexample: `"12-25-2024"` (`MM-DD-YYYY`, December 25 2024) is
accepted by the start-date parsing even though it matches none of the three
claimed formats: it contains no `T` (so it is not parsed as ISO date-time),
and both `%d-%m-%Y` and `%Y-%m-%d` reject it. -/
theorem C7_exactly_three_formats_counterexample :
    parse_start_date "12-25-2024" = .ok ⟨2024, 12, 25⟩ ∧
    strptimeDMY "12-25-2024" = none ∧
    strptimeYMD "12-25-2024" = none ∧
    ("12-25-2024" : String).data.contains 'T' = false := by
  refine ⟨?_, by decide, by decide, by decide⟩
  decide

/-- C7 amended: a string containing `T` is handed to
`datetime.fromisoformat`, succeeding exactly when it matches the ISO
date-time grammar (`parseISODateTimeDate`) and failing with the documented
`ValueError` otherwise; among `T`-free strings the parser tries `%d-%m-%Y`
first, then `%Y-%m-%d`, then additionally `%m-%d-%Y` as a last fallback,
first match winning; a `T`-free string matching none of the three fails
with `ValueError` whose message names the offending string and the
documented formats (the message does not mention the extra `MM-DD-YYYY`
fallback). -/
theorem C7_start_date_trial_order :
    (∀ (s : String) (d : PDate), s.data.contains 'T' = true →
      parseISODateTimeDate s = some d → parse_start_date s = .ok d) ∧
    (∀ s : String, s.data.contains 'T' = true → parseISODateTimeDate s = none →
      parse_start_date s = .error (startDateErrMsg s)) ∧
    (∀ (s : String) (d : PDate), s.data.contains 'T' = false →
      s.data.contains '-' = true → strptimeDMY s = some d →
      parse_start_date s = .ok d) ∧
    (∀ (s : String) (d : PDate), s.data.contains 'T' = false →
      s.data.contains '-' = true → strptimeDMY s = none → strptimeYMD s = some d →
      parse_start_date s = .ok d) ∧
    (∀ (s : String) (d : PDate), s.data.contains 'T' = false →
      s.data.contains '-' = true → strptimeDMY s = none → strptimeYMD s = none →
      strptimeMDY s = some d → parse_start_date s = .ok d) ∧
    (∀ s : String, s.data.contains 'T' = false →
      strptimeDMY s = none → strptimeYMD s = none → strptimeMDY s = none →
      parse_start_date s = .error (startDateErrMsg s)) := by
  refine ⟨?_, ?_, ?_, ?_, ?_, ?_⟩
  · intro s d hT h1
    rw [parse_start_date, if_pos hT, h1]
  · intro s hT h1
    rw [parse_start_date, if_pos hT, h1]
  · intro s d hT hdash h1
    rw [parse_start_date, if_neg (by rw [hT]; simp), if_pos hdash, h1]
  · intro s d hT hdash h1 h2
    rw [parse_start_date, if_neg (by rw [hT]; simp), if_pos hdash, h1, h2]
  · intro s d hT hdash h1 h2 h3
    rw [parse_start_date, if_neg (by rw [hT]; simp), if_pos hdash, h1, h2, h3]
  · intro s hT h1 h2 h3
    rw [parse_start_date, if_neg (by rw [hT]; simp)]
    by_cases hdash : s.data.contains '-' = true
    · rw [if_pos hdash, h1, h2, h3]
    · rw [if_neg hdash]

/-- C7 amended witness: an ISO date-time with fractional seconds parses on
the `T` branch, an unparseable `T`-string fails with the documented
message, `"25-12-2024"` parses as `%d-%m-%Y` (25 December 2024), and
`"boxing day"` fails with the documented error message. -/
theorem C7_start_date_trial_order_witness :
    parse_start_date "2024-12-25T10:30:45.123456" = .ok ⟨2024, 12, 25⟩ ∧
    parse_start_date "2024-12-25TXX" = .error (startDateErrMsg "2024-12-25TXX") ∧
    parse_start_date "25-12-2024" = .ok ⟨2024, 12, 25⟩ ∧
    parse_start_date "boxing day" = .error (startDateErrMsg "boxing day") :=
  ⟨C7_start_date_trial_order.1 "2024-12-25T10:30:45.123456" ⟨2024, 12, 25⟩
      (by decide) (by decide),
   C7_start_date_trial_order.2.1 "2024-12-25TXX" (by decide) (by decide),
   (C7_start_date_trial_order.2.2.1 "25-12-2024" ⟨2024, 12, 25⟩
      (by decide) (by decide) (by decide)),
   C7_start_date_trial_order.2.2.2.2.2 "boxing day"
      (by decide) (by decide) (by decide) (by decide)⟩
